import Mathlib

/-!
Verification of `tools/lint/clang_format_lint.py`.

The script is shallowly embedded: filenames and file/console text are
`List Char`; `os.path.splitext` (POSIX semantics, from CPython's
`genericpath._splitext` with `sep = '/'`, `extsep = '.'`) is `splitext`;
`_is_cxx` is `is_cxx`; `_check_clang_format_idempotence` is
`checkClangFormatIdempotence`, parameterised by an environment `Env`
that supplies the behaviour of the external tools (`shutil.which`,
the formatter's stdout, `diff -u - file` output, on-disk contents);
`main` is `mainRun`, threading the accumulated error count and the
console output.
-/

namespace ClangFormatLint

/-- Index of the last occurrence of `c` in the list, if any
(the value of Python's `str.rfind`, with `none` for `-1`). -/
def rlast (c : Char) : List Char → Option Nat
  | [] => none
  | a :: as =>
    match rlast c as with
    | some i => some (i + 1)
    | none => if a = c then some 0 else none

/-- CPython's `os.path.splitext` for POSIX paths, following
`genericpath._splitext` with `sep = '/'`, no `altsep`, `extsep = '.'`:
find the last `'.'` and the last `'/'`; if the dot comes after the
separator and at least one character strictly between the start of the
basename and that dot is not a dot, split there; otherwise the
extension is empty. -/
def splitext (p : List Char) : List Char × List Char :=
  match rlast '.' p with
  | none => (p, [])
  | some dotIndex =>
    let sepIndex : Int :=
      match rlast '/' p with
      | none => -1
      | some i => (i : Int)
    if sepIndex < (dotIndex : Int) then
      let filenameIndex : Nat := (sepIndex + 1).toNat
      if ((p.drop filenameIndex).take (dotIndex - filenameIndex)).all
          (fun c => c = '.') then
        (p, [])
      else
        (p.take dotIndex, p.drop dotIndex)
    else
      (p, [])

/-- The allow-list of final extensions accepted by `_is_cxx`
(the list literal in the `return` statement). -/
def allowList : List (List Char) :=
  [ ['.', 'c'],
    ['.', 'c', 'c'],
    ['.', 'c', 'p', 'p'],
    ['.', 'c', 'x', 'x'],
    ['.', 'c', '+', '+'],
    ['.', 'C'],
    ['.', 'h'],
    ['.', 'h', 'h'],
    ['.', 'h', 'p', 'p'],
    ['.', 'h', 'x', 'x'],
    ['.', 'i', 'n', 'c'] ]

/-- Embedding of `_is_cxx` from `clang_format_lint.py`: split off the final
extension, split the penultimate extension from the remaining root,
return `False` when the penultimate extension equals the two-character
string `cu`, else test membership of the final extension in the
allow-list. -/
def is_cxx (filename : List Char) : Bool :=
  let root := (splitext filename).1
  let ext := (splitext filename).2
  let penultimate_ext := (splitext root).2
  if penultimate_ext = ['c', 'u'] then false
  else decide (ext ∈ allowList)

/-- The argv element `"-style=file"`. -/
def styleFlag : List Char :=
  ['-', 's', 't', 'y', 'l', 'e', '=', 'f', 'i', 'l', 'e']

/-- The in-place-edit flag `"-i"`; it appears in the script only inside
the printed remediation suggestion, never in a spawned command. -/
def inPlaceFlag : List Char := ['-', 'i']

/-- The fixed diff binary path `"/usr/bin/diff"`. -/
def diffBinary : List Char :=
  ['/', 'u', 's', 'r', '/', 'b', 'i', 'n', '/', 'd', 'i', 'f', 'f']

/-- The argv element `"-u"`. -/
def dashU : List Char := ['-', 'u']

/-- The argv element `"-"` (read stdin). -/
def dashOnly : List Char := ['-']

/-- Behaviour of the execution environment as seen by the script: the
result of `shutil.which("clang-format")`, whether `/usr/bin/diff`
exists, the formatter's stdout for a given formatter path and file, the
output of `diff -u - file` for a given stdin text and file, and the
on-disk content of each file. -/
structure Env where
  whichClangFormat : Option (List Char)
  diffAvailable : Bool
  fmtOut : List Char → List Char → List Char
  diffOut : List Char → List Char → List Char
  fileContent : List Char → List Char

/-- Exceptions the script can raise while spawning the two child
processes: `Popen([None, ...])` when `shutil.which` returned `None`
raises `TypeError`; a missing `/usr/bin/diff` raises
`FileNotFoundError`. -/
inductive PyError where
  | typeError
  | fileNotFound
deriving DecidableEq

/-- Result of a completed `_check_clang_format_idempotence` call: the
returned integer, the printed lines, and the argv of each spawned child
process in spawn order. -/
structure CheckResult where
  code : Nat
  output : List (List Char)
  spawned : List (List (List Char))
deriving DecidableEq

/-- The line `print("ERROR: {} needs clang-format".format(filename))`. -/
def errLine (filename : List Char) : List Char :=
  "ERROR: ".toList ++ filename ++ " needs clang-format".toList

/-- The line
`print(f"You can fix it by `{clang_format} -style=file -i {filename}`")`. -/
def fixLine (clang_format filename : List Char) : List Char :=
  "You can fix it by `".toList ++ clang_format ++ " -style=file -i ".toList
    ++ filename ++ "`".toList

/-- The line `print(f"Full diff: {changes}")`. -/
def diffLine (changes : List Char) : List Char :=
  "Full diff: ".toList ++ changes

/-- Embedding of `_check_clang_format_idempotence`: look up `clang-format`, spawn it
with `-style=file` on the file piping stdout into
`/usr/bin/diff -u - filename`, read the diff output (`changes`); return
`0` silently when it is empty, else print the error line, the
remediation suggestion and the full diff, and return `1`. -/
def checkClangFormatIdempotence (env : Env) (filename : List Char) :
    Except PyError CheckResult :=
  match env.whichClangFormat with
  | none => .error .typeError
  | some clang_format =>
    if env.diffAvailable then
      let fmtCmd := [clang_format, styleFlag, filename]
      let diffCmd := [diffBinary, dashU, dashOnly, filename]
      let changes := env.diffOut (env.fmtOut clang_format filename) filename
      if changes = [] then
        .ok ⟨0, [], [fmtCmd, diffCmd]⟩
      else
        .ok ⟨1,
             [errLine filename, fixLine clang_format filename,
              diffLine changes],
             [fmtCmd, diffCmd]⟩
    else .error .fileNotFound

/-- The line `print("clang_format_lint.py: Skipping " + filename)`. -/
def skippingLine (filename : List Char) : List Char :=
  "clang_format_lint.py: Skipping ".toList ++ filename

/-- The line `print("clang_format_lint.py: Linting " + filename)`. -/
def lintingLine (filename : List Char) : List Char :=
  "clang_format_lint.py: Linting ".toList ++ filename

/-- Outcome of a completed run of `main`: the `sys.exit` code and the
printed lines. -/
structure RunResult where
  exitCode : Nat
  output : List (List Char)
deriving DecidableEq

/-- The `for filename in sys.argv[1:]` loop of `main`, carrying
`total_errors` and the console output produced so far, followed by the
final `sys.exit(0 if total_errors == 0 else 1)`. -/
def mainLoop (env : Env) :
    List (List Char) → Nat → List (List Char) → Except PyError RunResult
  | [], total_errors, out =>
    .ok ⟨if total_errors = 0 then 0 else 1, out⟩
  | filename :: rest, total_errors, out =>
    if is_cxx filename then
      match checkClangFormatIdempotence env filename with
      | .error e => .error e
      | .ok r =>
        mainLoop env rest (total_errors + r.code)
          (out ++ lintingLine filename :: r.output)
    else
      mainLoop env rest total_errors (out ++ [skippingLine filename])

/-- Embedding of `main`: run the loop over the command-line path arguments with the
error count starting at zero and no output yet. -/
def mainRun (env : Env) (args : List (List Char)) :
    Except PyError RunResult :=
  mainLoop env args 0 []

/-- The `changes` value computed inside the checker for a file, given
the formatter path: the diff of the formatter's stdout against the
on-disk file. -/
def changesOf (env : Env) (clang_format filename : List Char) :
    List Char :=
  env.diffOut (env.fmtOut clang_format filename) filename

/-- The integer the checker returns for one file (when both tools are
available): `0` on an empty diff, else `1`. -/
def fileErrors (env : Env) (clang_format filename : List Char) : Nat :=
  if changesOf env clang_format filename = [] then 0 else 1

/-- The value of `total_errors` after the loop: the sum of the
checker's return values over the eligible arguments. -/
def totalErrors (env : Env) (clang_format : List Char) :
    List (List Char) → Nat
  | [] => 0
  | filename :: rest =>
    (if is_cxx filename then fileErrors env clang_format filename else 0)
      + totalErrors env clang_format rest

/-- Proposition that `check(path)` returns `n`: the spawned check completes and its
returned integer is `n`. -/
def checkReturns (env : Env) (filename : List Char) (n : Nat) : Prop :=
  ∃ r, checkClangFormatIdempotence env filename = .ok r ∧ r.code = n

/-- A concrete environment for witnesses: `clang-format` resolves to
the path `cf`, `/usr/bin/diff` exists, the on-disk content of a file
equals its name, the formatter reproduces the on-disk content, and the
diff of two texts is empty when they are equal and is `!` otherwise. -/
def envOk : Env :=
  ⟨some ['c', 'f'], true, fun _ filename => filename,
   fun a b => if a = b then [] else ['!'],
   fun filename => filename⟩

/-- A concrete environment like `envOk` except the formatter always
outputs `x`, which differs from the on-disk content of interest. -/
def envBad : Env :=
  ⟨some ['c', 'f'], true, fun _ _ => ['x'],
   fun a b => if a = b then [] else ['!'],
   fun filename => filename⟩

/-- The result of the completed clean check of `a.cc` under
`envOk`. -/
def cleanResult : CheckResult :=
  ⟨0, [], [[['c', 'f'], styleFlag, ['a', '.', 'c', 'c']],
           [diffBinary, dashU, dashOnly, ['a', '.', 'c', 'c']]]⟩

theorem rlast_get (c : Char) :
    ∀ (p : List Char) (i : Nat), rlast c p = some i →
      i < p.length ∧ p.get? i = some c := by
  intro p
  induction p with
  | nil => intro i h; simp [rlast] at h
  | cons a as ih =>
    intro i h
    unfold rlast at h
    cases hr : rlast c as with
    | some j =>
      rw [hr] at h
      simp only [Option.some.injEq] at h
      subst h
      obtain ⟨h1, h2⟩ := ih j hr
      exact ⟨Nat.succ_lt_succ h1, by simpa using h2⟩
    | none =>
      rw [hr] at h
      by_cases hac : a = c
      · subst hac
        rw [if_pos rfl] at h
        simp only [Option.some.injEq] at h
        subst h
        exact ⟨Nat.succ_pos _, by simp⟩
      · simp [hac] at h

theorem head_drop_of_get (c : Char) :
    ∀ (p : List Char) (i : Nat), p.get? i = some c →
      (p.drop i).head? = some c := by
  intro p
  induction p with
  | nil => intro i h; simp at h
  | cons a as ih =>
    intro i h
    cases i with
    | zero => simpa using h
    | succ j => simpa using ih j (by simpa using h)

theorem splitext_ext_shape (p : List Char) :
    (splitext p).2 = [] ∨ ∃ t, (splitext p).2 = '.' :: t := by
  unfold splitext
  cases hd : rlast '.' p with
  | none => simp
  | some d =>
    simp only
    split
    · split
      · simp
      · right
        obtain ⟨_, hget⟩ := rlast_get '.' p d hd
        have hh := head_drop_of_get '.' p d hget
        cases he : p.drop d with
        | nil => rw [he] at hh; simp at hh
        | cons x t =>
          rw [he] at hh
          simp only [List.head?_cons, Option.some.injEq] at hh
          exact ⟨t, by simp [he, hh]⟩
    · simp

theorem splitext_ext_ne_cu (p : List Char) :
    (splitext p).2 ≠ ['c', 'u'] := by
  rcases splitext_ext_shape p with h | ⟨t, h⟩ <;> simp [h]

theorem is_cxx_eq_mem (f : List Char) :
    is_cxx f = decide ((splitext f).2 ∈ allowList) := by
  unfold is_cxx
  rw [if_neg (splitext_ext_ne_cu (splitext f).1)]

theorem check_ok (env : Env) (clang_format filename : List Char)
    (h1 : env.whichClangFormat = some clang_format)
    (h2 : env.diffAvailable = true) :
    checkClangFormatIdempotence env filename =
      .ok ⟨fileErrors env clang_format filename,
           if changesOf env clang_format filename = [] then []
           else [errLine filename, fixLine clang_format filename,
                 diffLine (changesOf env clang_format filename)],
           [[clang_format, styleFlag, filename],
            [diffBinary, dashU, dashOnly, filename]]⟩ := by
  unfold checkClangFormatIdempotence fileErrors changesOf
  rw [h1]
  by_cases hc : env.diffOut (env.fmtOut clang_format filename) filename = []
  · simp [h2, hc]
  · simp [h2, hc]

theorem mainLoop_ok (env : Env) (clang_format : List Char)
    (h1 : env.whichClangFormat = some clang_format)
    (h2 : env.diffAvailable = true) :
    ∀ (args : List (List Char)) (total : Nat) (out : List (List Char)),
    ∃ o, mainLoop env args total out =
      .ok ⟨if total + totalErrors env clang_format args = 0 then 0 else 1,
           o⟩ := by
  intro args
  induction args with
  | nil =>
    intro total out
    exact ⟨out, by simp [mainLoop, totalErrors]⟩
  | cons f fs ih =>
    intro total out
    by_cases hf : is_cxx f = true
    · have hsum : totalErrors env clang_format (f :: fs)
          = fileErrors env clang_format f
            + totalErrors env clang_format fs := by
        simp [totalErrors, hf]
      obtain ⟨o, ho⟩ := ih (total + fileErrors env clang_format f)
        (out ++ lintingLine f ::
          (if changesOf env clang_format f = [] then []
           else [errLine f, fixLine clang_format f,
                 diffLine (changesOf env clang_format f)]))
      refine ⟨o, ?_⟩
      rw [hsum, ← Nat.add_assoc, mainLoop, if_pos hf,
        check_ok env clang_format f h1 h2]
      exact ho
    · have hsum : totalErrors env clang_format (f :: fs)
          = totalErrors env clang_format fs := by
        simp [totalErrors, hf]
      obtain ⟨o, ho⟩ := ih total (out ++ [skippingLine f])
      refine ⟨o, ?_⟩
      rw [hsum, mainLoop, if_neg hf]
      exact ho

theorem totalErrors_eq_zero_iff (env : Env) (clang_format : List Char) :
    ∀ args, totalErrors env clang_format args = 0 ↔
      ∀ f ∈ args, is_cxx f = true →
        fileErrors env clang_format f = 0 := by
  intro args
  induction args with
  | nil => simp [totalErrors]
  | cons f fs ih =>
    by_cases hf : is_cxx f = true
    · simp [totalErrors, hf, ih, Nat.add_eq_zero]
    · simp [totalErrors, hf, ih]

theorem totalErrors_filter (env : Env) (clang_format : List Char) :
    ∀ args, totalErrors env clang_format (args.filter is_cxx)
      = totalErrors env clang_format args := by
  intro args
  induction args with
  | nil => rfl
  | cons f fs ih =>
    by_cases hf : is_cxx f = true
    · rw [List.filter_cons_of_pos hf]
      simp [totalErrors, hf, ih]
    · rw [List.filter_cons_of_neg (by simpa using hf)]
      simp [totalErrors, hf, ih]

theorem checkReturns_iff (env : Env) (clang_format filename : List Char)
    (h1 : env.whichClangFormat = some clang_format)
    (h2 : env.diffAvailable = true) (n : Nat) :
    checkReturns env filename n ↔
      fileErrors env clang_format filename = n := by
  unfold checkReturns
  rw [check_ok env clang_format filename h1 h2]
  constructor
  · rintro ⟨r, hr, hcode⟩
    simp only [Except.ok.injEq] at hr
    rw [← hr] at hcode
    exact hcode
  · intro h
    exact ⟨_, rfl, h⟩

/-- C1: the claim says the eligibility classifier excludes every path
whose penultimate extension is `cu`, in particular
`is_eligible("foo.cu.cc") = false`. The code's own comment
(`# Don't clang-format CUDA files.`) states the same intent, but
`os.path.splitext` yields the penultimate extension with its leading
dot (`".cu"`), so the comparison `penultimate_ext == "cu"` never fires:
at the failing input `"foo.cu.cc"` the code returns `True`. -/
theorem is_cxx_foo_cu_cc :
    is_cxx ['f', 'o', 'o', '.', 'c', 'u', '.', 'c', 'c'] = true := by
  decide

/-- C2: any extension produced by `splitext` is empty or begins with
`'.'`, hence is never the dotless two-character list `cu`, so the
CUDA-exclusion branch of `_is_cxx` is unreachable and `_is_cxx` is
equivalent to membership of the final extension in the eleven-element
allow-list. -/
theorem splitext_cu_branch_unreachable :
    (∀ p : List Char,
      (splitext p).2 = [] ∨ (splitext p).2.head? = some '.')
    ∧ (∀ p : List Char, (splitext p).2 ≠ ['c', 'u'])
    ∧ (∀ f : List Char,
        is_cxx f = decide ((splitext f).2 ∈ allowList)) := by
  refine ⟨?_, splitext_ext_ne_cu, is_cxx_eq_mem⟩
  intro p
  rcases splitext_ext_shape p with h | ⟨t, h⟩
  · exact Or.inl h
  · exact Or.inr (by simp [h])

/-- C3: for every path not excluded by the (as-implemented)
penultimate-extension-`cu` rule, `_is_cxx` returns `true` iff the final
extension is in the allow-list `.c, .cc, .cpp, .cxx, .c++, .C, .h,
.hh, .hpp, .hxx, .inc`; in particular `foo.cc` and `foo.hpp` are
eligible while `foo.py` and `foo.cu` are not. -/
theorem is_cxx_allowlist_iff :
    (∀ f : List Char, (splitext (splitext f).1).2 ≠ ['c', 'u'] →
      (is_cxx f = true ↔ (splitext f).2 ∈ allowList))
    ∧ is_cxx ['f', 'o', 'o', '.', 'c', 'c'] = true
    ∧ is_cxx ['f', 'o', 'o', '.', 'h', 'p', 'p'] = true
    ∧ is_cxx ['f', 'o', 'o', '.', 'p', 'y'] = false
    ∧ is_cxx ['f', 'o', 'o', '.', 'c', 'u'] = false := by
  refine ⟨?_, by decide, by decide, by decide, by decide⟩
  intro f h
  unfold is_cxx
  rw [if_neg h]
  simp

/-- Witness for C3 at the concrete input `foo.cc`. -/
theorem is_cxx_allowlist_iff_witness :
    is_cxx ['f', 'o', 'o', '.', 'c', 'c'] = true ↔
      (splitext ['f', 'o', 'o', '.', 'c', 'c']).2 ∈ allowList :=
  is_cxx_allowlist_iff.1 ['f', 'o', 'o', '.', 'c', 'c'] (by decide)

/-- C9: `_is_cxx` is a pure function (a Lean `def` with no effects) of
the final two extension components alone: filenames agreeing on the
final extension and on the penultimate extension classify
identically. -/
theorem is_cxx_depends_only_on_exts (f g : List Char)
    (hext : (splitext f).2 = (splitext g).2)
    (hpen : (splitext (splitext f).1).2 = (splitext (splitext g).1).2) :
    is_cxx f = is_cxx g := by
  simp only [is_cxx]
  rw [hext, hpen]

/-- Witness for C9: `a/foo.cc` and `bar.cc` agree on both extension
components and classify identically. -/
theorem is_cxx_depends_only_on_exts_witness :
    (splitext ['a', '/', 'f', 'o', 'o', '.', 'c', 'c']).2
        = (splitext ['b', 'a', 'r', '.', 'c', 'c']).2
    ∧ (splitext (splitext ['a', '/', 'f', 'o', 'o', '.', 'c', 'c']).1).2
        = (splitext (splitext ['b', 'a', 'r', '.', 'c', 'c']).1).2
    ∧ is_cxx ['a', '/', 'f', 'o', 'o', '.', 'c', 'c']
        = is_cxx ['b', 'a', 'r', '.', 'c', 'c'] :=
  ⟨by decide, by decide,
   is_cxx_depends_only_on_exts _ _ (by decide) (by decide)⟩

/-- C10: with an empty argument list the loop body never runs, so
`main` prints nothing, checks nothing, and exits with code 0, in every
environment. -/
theorem mainRun_empty (env : Env) : mainRun env [] = .ok ⟨0, []⟩ := rfl

theorem if_zero_one_eq_zero_iff (T : Nat) :
    ((if T = 0 then 0 else 1 : Nat) = 0) ↔ T = 0 := by
  by_cases h : T = 0 <;> simp [h]

/-- C4: with the external tools available, `main` completes; its exit
code is 0 iff the check returns 0 for every eligible argument; it is 1
when some eligible argument's check returns 1; and dropping the
ineligible arguments leaves the exit code unchanged. -/
theorem mainRun_aggregation (env : Env) (clang_format : List Char)
    (args : List (List Char))
    (h1 : env.whichClangFormat = some clang_format)
    (h2 : env.diffAvailable = true) :
    ∃ r, mainRun env args = .ok r ∧
      (r.exitCode = 0 ↔
        ∀ f ∈ args, is_cxx f = true → checkReturns env f 0)
      ∧ ((∃ f ∈ args, is_cxx f = true ∧ checkReturns env f 1) →
          r.exitCode = 1)
      ∧ (∃ q, mainRun env (args.filter is_cxx) = .ok q ∧
          q.exitCode = r.exitCode) := by
  obtain ⟨o, ho⟩ := mainLoop_ok env clang_format h1 h2 args 0 []
  rw [Nat.zero_add] at ho
  obtain ⟨o2, ho2⟩ :=
    mainLoop_ok env clang_format h1 h2 (args.filter is_cxx) 0 []
  rw [Nat.zero_add, totalErrors_filter] at ho2
  refine ⟨_, ho, ?_, ?_, ⟨_, ho2, rfl⟩⟩
  · show (if totalErrors env clang_format args = 0 then 0 else 1) = 0 ↔ _
    rw [if_zero_one_eq_zero_iff, totalErrors_eq_zero_iff]
    constructor
    · intro h f hmem hf
      rw [checkReturns_iff env clang_format f h1 h2]
      exact h f hmem hf
    · intro h f hmem hf
      have hr := h f hmem hf
      rwa [checkReturns_iff env clang_format f h1 h2] at hr
  · rintro ⟨f, hmem, hf, hret⟩
    have hfe : fileErrors env clang_format f = 1 :=
      (checkReturns_iff env clang_format f h1 h2 1).1 hret
    have hTn : totalErrors env clang_format args ≠ 0 := by
      intro hT
      have h0 :=
        (totalErrors_eq_zero_iff env clang_format args).1 hT f hmem hf
      omega
    show (if totalErrors env clang_format args = 0 then 0 else 1) = 1
    rw [if_neg hTn]

/-- Witness for C4: one eligible, already-clean argument under
`envOk`. -/
theorem mainRun_aggregation_witness :
    ∃ r, mainRun envOk [['a', '.', 'c', 'c']] = .ok r ∧
      (r.exitCode = 0 ↔
        ∀ f ∈ [['a', '.', 'c', 'c']], is_cxx f = true →
          checkReturns envOk f 0)
      ∧ ((∃ f ∈ [['a', '.', 'c', 'c']], is_cxx f = true ∧
            checkReturns envOk f 1) → r.exitCode = 1)
      ∧ (∃ q, mainRun envOk ([['a', '.', 'c', 'c']].filter is_cxx)
            = .ok q ∧ q.exitCode = r.exitCode) :=
  mainRun_aggregation envOk ['c', 'f'] [['a', '.', 'c', 'c']] rfl rfl

/-- C5: when the formatter's output is byte-identical to the on-disk
content the diff is empty, so the check returns 0, prints nothing, and
spawned only the stdout-mode formatter and the diff. The hypothesis
`hdiff` is the contract of `diff -u - file`: empty output exactly when
stdin equals the file's content. -/
theorem check_clean (env : Env) (clang_format filename : List Char)
    (h1 : env.whichClangFormat = some clang_format)
    (h2 : env.diffAvailable = true)
    (hdiff : ∀ a b, env.diffOut a b = [] ↔ a = env.fileContent b)
    (hsame : env.fmtOut clang_format filename
      = env.fileContent filename) :
    checkClangFormatIdempotence env filename =
      .ok ⟨0, [], [[clang_format, styleFlag, filename],
                   [diffBinary, dashU, dashOnly, filename]]⟩ := by
  have hc : changesOf env clang_format filename = [] := by
    rw [changesOf, hdiff]
    exact hsame
  rw [check_ok env clang_format filename h1 h2]
  simp [fileErrors, hc]

/-- Witness for C5: under `envOk` the file `a.cc` is clean. -/
theorem check_clean_witness :
    checkClangFormatIdempotence envOk ['a', '.', 'c', 'c'] =
      .ok ⟨0, [], [[['c', 'f'], styleFlag, ['a', '.', 'c', 'c']],
                   [diffBinary, dashU, dashOnly,
                    ['a', '.', 'c', 'c']]]⟩ :=
  check_clean envOk ['c', 'f'] ['a', '.', 'c', 'c'] rfl rfl
    (fun a b => by by_cases h : a = b <;> simp [envOk, h]) rfl

/-- C6: when the formatter's output differs from the on-disk content
the diff is non-empty, so the check returns 1 and prints exactly the
error line, the remediation line and the full-diff line; the filename
occurs in the error line and in the remediation line, the in-place
flag `-i` occurs in the remediation line, and the diff text occurs in
the full-diff line. -/
theorem check_dirty (env : Env) (clang_format filename : List Char)
    (h1 : env.whichClangFormat = some clang_format)
    (h2 : env.diffAvailable = true)
    (hdiff : ∀ a b, env.diffOut a b = [] ↔ a = env.fileContent b)
    (hdiffer : env.fmtOut clang_format filename
      ≠ env.fileContent filename) :
    checkClangFormatIdempotence env filename =
      .ok ⟨1, [errLine filename, fixLine clang_format filename,
               diffLine (changesOf env clang_format filename)],
           [[clang_format, styleFlag, filename],
            [diffBinary, dashU, dashOnly, filename]]⟩
    ∧ changesOf env clang_format filename ≠ []
    ∧ List.IsInfix filename (errLine filename)
    ∧ List.IsInfix filename (fixLine clang_format filename)
    ∧ List.IsInfix inPlaceFlag (fixLine clang_format filename)
    ∧ List.IsInfix (changesOf env clang_format filename)
        (diffLine (changesOf env clang_format filename)) := by
  have hc : changesOf env clang_format filename ≠ [] := by
    rw [changesOf, Ne, hdiff]
    exact hdiffer
  refine ⟨?_, hc, ?_, ?_, ?_, ?_⟩
  · rw [check_ok env clang_format filename h1 h2]
    simp [fileErrors, hc]
  · exact ⟨"ERROR: ".toList, " needs clang-format".toList,
      by simp [errLine]⟩
  · exact ⟨"You can fix it by `".toList ++ clang_format
        ++ " -style=file -i ".toList, "`".toList,
      by simp [fixLine]⟩
  · refine ⟨"You can fix it by `".toList ++ clang_format
        ++ " -style=file ".toList,
      " ".toList ++ filename ++ "`".toList, ?_⟩
    have hmid : " -style=file ".toList ++ inPlaceFlag ++ " ".toList
        = " -style=file -i ".toList := by rfl
    rw [fixLine, ← hmid]
    simp
  · exact ⟨"Full diff: ".toList, [], by simp [diffLine]⟩

/-- Witness for C6: under `envBad` the file `a.cc` needs
formatting. -/
theorem check_dirty_witness :
    checkClangFormatIdempotence envBad ['a', '.', 'c', 'c'] =
      .ok ⟨1, [errLine ['a', '.', 'c', 'c'],
               fixLine ['c', 'f'] ['a', '.', 'c', 'c'],
               diffLine (changesOf envBad ['c', 'f']
                 ['a', '.', 'c', 'c'])],
           [[['c', 'f'], styleFlag, ['a', '.', 'c', 'c']],
            [diffBinary, dashU, dashOnly, ['a', '.', 'c', 'c']]]⟩
    ∧ changesOf envBad ['c', 'f'] ['a', '.', 'c', 'c'] ≠ []
    ∧ List.IsInfix ['a', '.', 'c', 'c'] (errLine ['a', '.', 'c', 'c'])
    ∧ List.IsInfix ['a', '.', 'c', 'c']
        (fixLine ['c', 'f'] ['a', '.', 'c', 'c'])
    ∧ List.IsInfix inPlaceFlag (fixLine ['c', 'f'] ['a', '.', 'c', 'c'])
    ∧ List.IsInfix (changesOf envBad ['c', 'f'] ['a', '.', 'c', 'c'])
        (diffLine (changesOf envBad ['c', 'f'] ['a', '.', 'c', 'c'])) :=
  check_dirty envBad ['c', 'f'] ['a', '.', 'c', 'c'] rfl rfl
    (fun a b => by by_cases h : a = b <;> simp [envBad, h])
    (by decide)

/-- C7: with the tools available, every per-file check completes
normally with return value 0 or 1 (no exception reaches the driver),
and the driver itself always completes, so one file's bad diff never
aborts processing of the later paths. -/
theorem check_total_driver (env : Env) (clang_format : List Char)
    (h1 : env.whichClangFormat = some clang_format)
    (h2 : env.diffAvailable = true) :
    (∀ filename, ∃ r,
      checkClangFormatIdempotence env filename = .ok r ∧
        (r.code = 0 ∨ r.code = 1))
    ∧ (∀ args, ∃ q, mainRun env args = .ok q) := by
  constructor
  · intro filename
    refine ⟨_, check_ok env clang_format filename h1 h2, ?_⟩
    show fileErrors env clang_format filename = 0
      ∨ fileErrors env clang_format filename = 1
    unfold fileErrors
    split
    · exact Or.inl rfl
    · exact Or.inr rfl
  · intro args
    obtain ⟨o, ho⟩ := mainLoop_ok env clang_format h1 h2 args 0 []
    exact ⟨_, ho⟩

/-- Witness for C7 under `envOk`. -/
theorem check_total_driver_witness :
    (∀ filename, ∃ r,
      checkClangFormatIdempotence envOk filename = .ok r ∧
        (r.code = 0 ∨ r.code = 1))
    ∧ (∀ args, ∃ q, mainRun envOk args = .ok q) :=
  check_total_driver envOk ['c', 'f'] rfl rfl

/-- C8: the environment is read-only in the model, so a completed
check's whole effect is its return value, its printed lines and its
two spawned commands: the formatter in stdout mode and the diff. No
spawned argv carries the in-place flag `-i` (its flags are exactly
`-style=file`, `-u` and `-`, all distinct from `-i`); the in-place
form appears only in the printed remediation suggestion. -/
theorem check_no_mutation (env : Env) (filename : List Char)
    (r : CheckResult)
    (h : checkClangFormatIdempotence env filename = .ok r) :
    ∃ clang_format, env.whichClangFormat = some clang_format ∧
      r.spawned = [[clang_format, styleFlag, filename],
                   [diffBinary, dashU, dashOnly, filename]] ∧
      styleFlag ≠ inPlaceFlag ∧ dashU ≠ inPlaceFlag ∧
      dashOnly ≠ inPlaceFlag ∧
      (r.output = [] ∨
        ∃ changes, r.output =
          [errLine filename, fixLine clang_format filename,
           diffLine changes]) := by
  cases hw : env.whichClangFormat with
  | none =>
    unfold checkClangFormatIdempotence at h
    rw [hw] at h
    simp at h
  | some clang_format =>
    by_cases h2 : env.diffAvailable = true
    · rw [check_ok env clang_format filename hw h2] at h
      simp only [Except.ok.injEq] at h
      subst h
      refine ⟨clang_format, rfl, rfl, by decide, by decide, by decide, ?_⟩
      by_cases hc : changesOf env clang_format filename = []
      · exact Or.inl (by simp [hc])
      · exact Or.inr ⟨changesOf env clang_format filename, by simp [hc]⟩
    · unfold checkClangFormatIdempotence at h
      rw [hw] at h
      simp [h2] at h

/-- Witness for C8: the clean check of `a.cc` under `envOk`. -/
theorem check_no_mutation_witness :
    ∃ clang_format, envOk.whichClangFormat = some clang_format ∧
      cleanResult.spawned =
        [[clang_format, styleFlag, ['a', '.', 'c', 'c']],
         [diffBinary, dashU, dashOnly, ['a', '.', 'c', 'c']]] ∧
      styleFlag ≠ inPlaceFlag ∧ dashU ≠ inPlaceFlag ∧
      dashOnly ≠ inPlaceFlag ∧
      (cleanResult.output = [] ∨
        ∃ changes, cleanResult.output =
          [errLine ['a', '.', 'c', 'c'],
           fixLine clang_format ['a', '.', 'c', 'c'],
           diffLine changes]) :=
  check_no_mutation envOk ['a', '.', 'c', 'c'] cleanResult rfl

end ClangFormatLint
